import Mathlib

/-!
# Verification of the Xeggex order-book connector

Shallow embedding of `hummingbot/connector/exchange/xeggex/`:
`xeggex_utils.py` (retrying REST client), `xeggex_order_book.py`
(message normalizers) and `xeggex_api_order_book_data_source.py`
(symbol registry and listener loops), together with proofs of the
spec's testable properties.

Python dictionaries are modelled as association lists in insertion
order with unique keys (`List (String × α)`); `dict.get` returns the
JSON value `JVal.null` for an absent key, mirroring Python's `None`.
`Constants.API_MAX_RETRIES` lives in `xeggex_constants.py`, which only
defines configuration numbers; it is kept as an explicit parameter
`maxRetries` so every statement holds for the configured value.
-/

namespace Xeggex

/-- JSON values as the connector sees them after `response.json()`:
strings, numbers, nested objects, arrays, booleans and `null`
(Python `None`). -/
inductive JVal where
  | null
  | bool (b : Bool)
  | num (n : Int)
  | str (s : String)
  | arr (vs : List JVal)
  | obj (kvs : List (String × JVal))

/-- A Python dict with `JVal` values, in insertion order. -/
abbrev PyDict := List (String × JVal)

/-- First value stored under key `k` (Python `d[k]` / `KeyError` as `none`). -/
def pyLookup {α : Type} : List (String × α) → String → Option α
  | [], _ => none
  | (k', v) :: rest, k => if k' = k then some v else pyLookup rest k

/-- Python `d.get(k)`: the stored value, or `None` when the key is absent. -/
def pyGet (m : PyDict) (k : String) : JVal :=
  (pyLookup m k).getD .null

/-- Python `k in d`. -/
def hasKey {α : Type} (m : List (String × α)) (k : String) : Bool :=
  (pyLookup m k).isSome

/-- Rewrite one stored entry to `(k, v)` when its key is `k`. -/
def updEntry (k : String) (v : JVal) (kv : String × JVal) : String × JVal :=
  if kv.1 = k then (k, v) else kv

/-- One step of Python `dict.update`: replace the value in place when the
key exists, otherwise append the new binding. -/
def dictUpd (m : PyDict) (k : String) (v : JVal) : PyDict :=
  if hasKey m k then m.map (updEntry k v) else m ++ [(k, v)]

/-- Python `m.update(upd)`, applied binding by binding. -/
def dictUpdate (m : PyDict) (upd : PyDict) : PyDict :=
  upd.foldl (fun acc kv => dictUpd acc kv.1 kv.2) m

@[simp] theorem pyLookup_nil {α : Type} (k : String) :
    pyLookup ([] : List (String × α)) k = none := rfl

@[simp] theorem pyLookup_cons {α : Type} (k' k : String) (v : α) (rest : List (String × α)) :
    pyLookup ((k', v) :: rest) k = if k' = k then some v else pyLookup rest k := rfl

theorem pyLookup_append_left {α : Type} {m : List (String × α)} {k : String}
    (h : (pyLookup m k).isSome) (m' : List (String × α)) :
    pyLookup (m ++ m') k = pyLookup m k := by
  induction m with
  | nil => simp [pyLookup] at h
  | cons kv rest ih =>
    obtain ⟨k', v⟩ := kv
    by_cases hk : k' = k
    · simp [pyLookup, hk]
    · simp only [pyLookup, hk, if_false, List.cons_append] at h ⊢
      exact ih h

theorem pyLookup_append_right {α : Type} {m : List (String × α)} {k : String}
    (h : pyLookup m k = none) (m' : List (String × α)) :
    pyLookup (m ++ m') k = pyLookup m' k := by
  induction m with
  | nil => simp
  | cons kv rest ih =>
    obtain ⟨k', v⟩ := kv
    by_cases hk : k' = k
    · simp [pyLookup, hk] at h
    · simp only [pyLookup, hk, if_false, List.cons_append] at h ⊢
      exact ih h

theorem updEntry_self (k : String) (v w : JVal) : updEntry k v (k, w) = (k, v) :=
  if_pos rfl

theorem updEntry_ne {k k' : String} (v w : JVal) (h : k' ≠ k) :
    updEntry k v (k', w) = (k', w) :=
  if_neg h

theorem pyLookup_map_upd_self {m : PyDict} {k : String} (v : JVal)
    (h : (pyLookup m k).isSome) :
    pyLookup (m.map (updEntry k v)) k = some v := by
  induction m with
  | nil => simp [pyLookup] at h
  | cons kv rest ih =>
    obtain ⟨k', w⟩ := kv
    by_cases hk : k' = k
    · subst hk
      rw [List.map_cons, updEntry_self, pyLookup_cons, if_pos rfl]
    · simp only [pyLookup, hk, if_false] at h
      rw [List.map_cons, updEntry_ne v w hk, pyLookup_cons, if_neg hk]
      exact ih h

theorem pyLookup_map_upd_ne {m : PyDict} {k k' : String} (v : JVal) (hne : k' ≠ k) :
    pyLookup (m.map (updEntry k' v)) k = pyLookup m k := by
  induction m with
  | nil => simp
  | cons kv rest ih =>
    obtain ⟨k'', w⟩ := kv
    by_cases hk : k'' = k'
    · subst hk
      rw [List.map_cons, updEntry_self, pyLookup_cons, pyLookup_cons,
        if_neg hne, if_neg hne, ih]
    · rw [List.map_cons, updEntry_ne v w hk, pyLookup_cons, pyLookup_cons, ih]

/-- Updating key `k` makes `k` map to the new value. -/
theorem pyLookup_dictUpd_self (m : PyDict) (k : String) (v : JVal) :
    pyLookup (dictUpd m k v) k = some v := by
  unfold dictUpd
  by_cases h : hasKey m k
  · simp only [h, if_true]
    exact pyLookup_map_upd_self v (by simpa [hasKey] using h)
  · simp only [h, if_false]
    have hnone : pyLookup m k = none := by
      cases hpk : pyLookup m k with
      | none => rfl
      | some v => exact absurd (by simp [hasKey, hpk]) h
    simp [pyLookup_append_right hnone, pyLookup]

/-- Updating key `k'` leaves every other key unchanged. -/
theorem pyLookup_dictUpd_ne (m : PyDict) {k k' : String} (v : JVal) (hne : k' ≠ k) :
    pyLookup (dictUpd m k' v) k = pyLookup m k := by
  unfold dictUpd
  by_cases h : hasKey m k'
  · simp only [h, if_true]
    exact pyLookup_map_upd_ne v hne
  · simp only [h, if_false]
    by_cases hk : (pyLookup m k).isSome
    · exact pyLookup_append_left hk _
    · have hnone : pyLookup m k = none := by
        cases hpk : pyLookup m k with
        | none => rfl
        | some v => exact absurd (by simp [hpk]) hk
      simp [pyLookup_append_right hnone, pyLookup, hne, hnone]

theorem hasKey_eq_false_of_not_mem {α : Type} {m : List (String × α)} {k : String}
    (h : k ∉ m.map Prod.fst) : hasKey m k = false := by
  induction m with
  | nil => rfl
  | cons kv rest ih =>
    obtain ⟨k', v⟩ := kv
    simp only [List.map_cons, List.mem_cons, not_or] at h
    have hk : k' ≠ k := fun he => h.1 he.symm
    simp only [hasKey, pyLookup_cons, hk, if_false]
    exact ih h.2

@[simp] theorem dictUpdate_nil (m : PyDict) : dictUpdate m [] = m := rfl

theorem dictUpdate_cons (m : PyDict) (k : String) (v : JVal) (rest : PyDict) :
    dictUpdate m ((k, v) :: rest) = dictUpdate (dictUpd m k v) rest := rfl

/-- Keys untouched by the update keep their old value. -/
theorem pyLookup_dictUpdate_not_mem {upd : PyDict} {k : String}
    (h : hasKey upd k = false) (m : PyDict) :
    pyLookup (dictUpdate m upd) k = pyLookup m k := by
  induction upd generalizing m with
  | nil => rfl
  | cons kv rest ih =>
    obtain ⟨k', v⟩ := kv
    simp only [hasKey, pyLookup_cons] at h
    by_cases hk : k' = k
    · simp [hk] at h
    · simp only [hk, if_false] at h
      rw [dictUpdate_cons, ih h, pyLookup_dictUpd_ne m v hk]

/-- Keys written by the update take the update's value (`dict.update`
semantics; the update itself has unique keys, as every Python dict does). -/
theorem pyLookup_dictUpdate_mem {upd : PyDict} {k : String} {v : JVal}
    (hnd : (upd.map Prod.fst).Nodup) (h : pyLookup upd k = some v) (m : PyDict) :
    pyLookup (dictUpdate m upd) k = some v := by
  induction upd generalizing m with
  | nil => simp at h
  | cons kv rest ih =>
    obtain ⟨k', v'⟩ := kv
    simp only [List.map_cons, List.nodup_cons] at hnd
    by_cases hk : k' = k
    · subst hk
      rw [pyLookup_cons, if_pos rfl] at h
      obtain rfl := Option.some.inj h
      have hrest : hasKey rest k' = false :=
        hasKey_eq_false_of_not_mem hnd.1
      rw [dictUpdate_cons, pyLookup_dictUpdate_not_mem hrest,
        pyLookup_dictUpd_self]
    · simp only [pyLookup_cons, hk, if_false] at h
      rw [dictUpdate_cons, ih hnd.2 h]

/-! ## `xeggex_utils.py`: response classification and the retrying client

`aiohttp_response_with_errors` consumes one HTTP exchange.  A response is
modelled by: whether the transport layer delivered a response at all
(`transport_ok`; `False` stands for the `async with` raising), the HTTP
status and reason phrase, the result of `response.json()` (`some body`
when the body parses as a structured object, `none` when it raises), and
the result of the raw `response.read()` fallback. -/

/-- One HTTP exchange as observed by `aiohttp_response_with_errors`. -/
structure PyResp where
  transport_ok : Bool
  status : Nat
  reason : String
  jsonBody : Option PyDict
  rawBody : Option String

/-- `parsed_response[:100] ... (truncated)` applied to over-long raw bodies. -/
def truncate100 (s : String) : String :=
  if s.length > 100 then (s.take 100) ++ " ... (truncated)" else s

/-- Python `x is None` on a parsed response. -/
def JVal.isNull : JVal → Bool
  | .null => true
  | _ => false

/-- The `(http_status, parsed_response, request_errors)` tuple returned by
`aiohttp_response_with_errors`. -/
structure RespResult where
  http_status : Option Nat
  parsed_response : JVal
  request_errors : Bool

/-- `xeggex_utils.aiohttp_response_with_errors`: classify one response.
A JSON failure falls back to the truncated raw body; a missing body is
replaced by the HTTP reason phrase; `TempFailure` marks a non-2xx status
whose parsed body has no `"error"` key. -/
def aiohttp_response_with_errors (r : PyResp) : RespResult :=
  if r.transport_ok then
    match r.jsonBody with
    | some body =>
        let tempFailure := !(r.status == 200 || r.status == 201) && !hasKey body "error"
        { http_status := some r.status, parsed_response := .obj body,
          request_errors := tempFailure }
    | none =>
        match r.rawBody with
        | some s =>
            { http_status := some r.status, parsed_response := .str (truncate100 s),
              request_errors := true }
        | none =>
            { http_status := some r.status, parsed_response := .str r.reason,
              request_errors := true }
  else
    { http_status := none, parsed_response := .null, request_errors := true }

/-- Outcome of `api_call_with_retries`: the parsed body, or the raised
`XeggexAPIError({"error": parsed_response, "status": http_status})`. -/
inductive ApiResult where
  | ok (resp : JVal)
  | apiError (errorPayload : JVal) (status : Option Nat)

/-- `xeggex_utils.api_call_with_retries`, instrumented with the number of
attempts performed.  `responses i` is the HTTP exchange observed by the
attempt with `try_count = i`; `maxRetries` is `Constants.API_MAX_RETRIES`. -/
def api_call_with_retries (maxRetries : Nat) (responses : Nat → PyResp)
    (try_count : Nat) : ApiResult × Nat :=
  let res := aiohttp_response_with_errors (responses try_count)
  if res.request_errors || res.parsed_response.isNull then
    if h : try_count < maxRetries then
      let rec_result := api_call_with_retries maxRetries responses (try_count + 1)
      (rec_result.1, rec_result.2 + 1)
    else
      (.apiError res.parsed_response res.http_status, 1)
  else
    (.ok res.parsed_response, 1)
termination_by maxRetries - try_count
decreasing_by omega

theorem api_call_all_fail_aux (maxRetries : Nat) (responses : Nat → PyResp)
    (hfail : ∀ i, (aiohttp_response_with_errors (responses i)).request_errors = true) :
    ∀ n t, maxRetries - t = n → t ≤ maxRetries →
      api_call_with_retries maxRetries responses t =
        (.apiError (aiohttp_response_with_errors (responses maxRetries)).parsed_response
                   (aiohttp_response_with_errors (responses maxRetries)).http_status,
         maxRetries + 1 - t) := by
  intro n
  induction n with
  | zero =>
    intro t h0 hle
    have ht : t = maxRetries := by omega
    subst ht
    rw [api_call_with_retries]
    simp [hfail t]
  | succ n ih =>
    intro t hn hle
    have hlt : t < maxRetries := by
      omega
    rw [api_call_with_retries]
    simp only [hfail t, Bool.true_or, if_true, hlt, dif_pos,
      ih (t + 1) (by omega) (by omega), Prod.mk.injEq]
    exact ⟨trivial, by omega⟩

/-- A response with no transport connection at all: `async with` raises. -/
def respDown : PyResp :=
  { transport_ok := false, status := 0, reason := "", jsonBody := none, rawBody := none }

/-- An HTTP 200 response whose structured body carries an `"error"` key. -/
def respOkWithErrorKey : PyResp :=
  { transport_ok := true, status := 200, reason := "OK",
    jsonBody := some [("error", .obj [("message", .str "bad param")])],
    rawBody := none }

/-- C1: when every attempt of a REST call is classified as failed,
`api_call_with_retries` starting from `try_count = 0` performs exactly
`Constants.API_MAX_RETRIES + 1` attempts (so at most that many), and the
`XeggexAPIError` it raises carries the HTTP status and parsed/raw body
observed on the last attempt. -/
theorem api_call_retry_bound (maxRetries : Nat) (responses : Nat → PyResp)
    (hfail : ∀ i, (aiohttp_response_with_errors (responses i)).request_errors = true) :
    (api_call_with_retries maxRetries responses 0).2 = maxRetries + 1 ∧
    (api_call_with_retries maxRetries responses 0).1 =
      .apiError (aiohttp_response_with_errors (responses maxRetries)).parsed_response
                (aiohttp_response_with_errors (responses maxRetries)).http_status := by
  have h := api_call_all_fail_aux maxRetries responses hfail (maxRetries - 0) 0 rfl
    (Nat.zero_le _)
  rw [h]
  exact ⟨by omega, rfl⟩

/-- Witness for C1: with `API_MAX_RETRIES = 2` and a connection that is
always down, the call makes 3 attempts and fails with the last status
(`None`) and body (`None`, surfaced as the `null` payload). -/
theorem api_call_retry_bound_witness :
    (api_call_with_retries 2 (fun _ => respDown) 0).2 = 2 + 1 ∧
    (api_call_with_retries 2 (fun _ => respDown) 0).1 = .apiError .null none :=
  api_call_retry_bound 2 (fun _ => respDown) (fun _ => rfl)

/-- C2: `aiohttp_response_with_errors` classifies a response as failed
exactly when the transport failed, or the body did not parse as
structured data, or the HTTP status is outside `{200, 201}` and the
parsed body has no `"error"` key; and an HTTP 200 response whose parsed
body has an `"error"` key is returned by `api_call_with_retries` as an
ordinary result after a single attempt, without retrying or raising. -/
theorem response_failure_classification :
    (∀ r : PyResp,
      (aiohttp_response_with_errors r).request_errors = true ↔
        (r.transport_ok = false ∨ r.jsonBody = none ∨
          (∃ body, r.jsonBody = some body ∧ r.status ≠ 200 ∧ r.status ≠ 201 ∧
            hasKey body "error" = false))) ∧
    (∀ (maxRetries : Nat) (responses : Nat → PyResp) (body : PyDict),
      (responses 0).transport_ok = true → (responses 0).status = 200 →
      (responses 0).jsonBody = some body → hasKey body "error" = true →
      api_call_with_retries maxRetries responses 0 = (.ok (.obj body), 1)) := by
  constructor
  · intro r
    unfold aiohttp_response_with_errors
    by_cases ht : r.transport_ok
    · cases hj : r.jsonBody with
      | none =>
        cases hr : r.rawBody <;> simp [ht, hj]
      | some body =>
        simp only [ht, if_true, hj]
        constructor
        · intro hb
          simp only [Bool.and_eq_true, Bool.not_eq_true', Bool.or_eq_false_iff,
            beq_eq_false_iff_ne] at hb
          exact Or.inr (Or.inr ⟨body, rfl, hb.1.1, hb.1.2, hb.2⟩)
        · rintro (h | h | ⟨body', hb', h200, h201, herr⟩)
          · simp [ht] at h
          · simp [hj] at h
          · obtain rfl := Option.some.inj hb'
            simp [h200, h201, herr]
    · simp [ht]
  · intro maxRetries responses body h1 h2 h3 h4
    rw [api_call_with_retries]
    have hresp : aiohttp_response_with_errors (responses 0) =
        { http_status := some 200, parsed_response := .obj body,
          request_errors := false } := by
      unfold aiohttp_response_with_errors
      simp [h1, h2, h3, h4]
    simp [hresp, JVal.isNull]

/-- Witness for C2: the always-down response is classified failed via the
transport clause, and a 200-with-`error`-key body comes straight back. -/
theorem response_failure_classification_witness :
    ((aiohttp_response_with_errors respDown).request_errors = true ↔
      (respDown.transport_ok = false ∨ respDown.jsonBody = none ∨
        (∃ body, respDown.jsonBody = some body ∧ respDown.status ≠ 200 ∧
          respDown.status ≠ 201 ∧ hasKey body "error" = false))) ∧
    api_call_with_retries 3 (fun _ => respOkWithErrorKey) 0 =
      (.ok (.obj [("error", .obj [("message", .str "bad param")])]), 1) :=
  ⟨response_failure_classification.1 respDown,
   response_failure_classification.2 3 (fun _ => respOkWithErrorKey)
     [("error", .obj [("message", .str "bad param")])] rfl rfl rfl rfl⟩

/-- `xeggex_utils.retry_sleep_time`.  `random.randint(1, 10)` is the
parameter `k` with `1 ≤ k ≤ 10`, so `randSleep = 1 + k/100`; Python's
`try_count ** try_count` evaluates `0 ** 0 = 1`, as `ℕ` power does.
Arithmetic is modelled over `ℚ`. -/
def retry_sleep_time (k : Nat) (try_count : Nat) : ℚ :=
  2 + (1 + (k : ℚ) / 100) * (1 + (try_count : ℚ) ^ try_count)

/-- C5: for every `try_count ≥ 0`, the sleep equals
`2 + jitter * (1 + try_count ^ try_count)` for some jitter in
`[1.01, 1.10]`, hence lies between `2 + 1.01 * (1 + try_count ^ try_count)`
and `2 + 1.10 * (1 + try_count ^ try_count)`. -/
theorem retry_sleep_time_jitter_bounds (k try_count : Nat)
    (hk1 : 1 ≤ k) (hk10 : k ≤ 10) :
    (∃ jitter : ℚ, 101 / 100 ≤ jitter ∧ jitter ≤ 110 / 100 ∧
      retry_sleep_time k try_count =
        2 + jitter * (1 + (try_count : ℚ) ^ try_count)) ∧
    2 + 101 / 100 * (1 + (try_count : ℚ) ^ try_count) ≤ retry_sleep_time k try_count ∧
    retry_sleep_time k try_count ≤
      2 + 110 / 100 * (1 + (try_count : ℚ) ^ try_count) := by
  have hk1' : (1 : ℚ) ≤ (k : ℚ) := by exact_mod_cast hk1
  have hk10' : (k : ℚ) ≤ 10 := by exact_mod_cast hk10
  have hjlo : (101 : ℚ) / 100 ≤ 1 + (k : ℚ) / 100 := by linarith
  have hjhi : (1 : ℚ) + (k : ℚ) / 100 ≤ 110 / 100 := by linarith
  have hpow : (0 : ℚ) ≤ 1 + (try_count : ℚ) ^ try_count := by positivity
  refine ⟨⟨1 + (k : ℚ) / 100, hjlo, hjhi, rfl⟩, ?_, ?_⟩
  · unfold retry_sleep_time
    nlinarith [mul_le_mul_of_nonneg_right hjlo hpow]
  · unfold retry_sleep_time
    nlinarith [mul_le_mul_of_nonneg_right hjhi hpow]

/-- Witness for C5 at `k = 3`, `try_count = 2`:
`retry_sleep_time = 2 + 1.03 * 5 = 7.15`, inside `[7.05, 7.5]`. -/
theorem retry_sleep_time_jitter_bounds_witness :
    (∃ jitter : ℚ, 101 / 100 ≤ jitter ∧ jitter ≤ 110 / 100 ∧
      retry_sleep_time 3 2 = 2 + jitter * (1 + (2 : ℚ) ^ 2)) ∧
    2 + 101 / 100 * (1 + (2 : ℚ) ^ 2) ≤ retry_sleep_time 3 2 ∧
    retry_sleep_time 3 2 ≤ 2 + 110 / 100 * (1 + (2 : ℚ) ^ 2) := by
  have h := retry_sleep_time_jitter_bounds 3 2 (by norm_num) (by norm_num)
  simpa using h

/-! ## `xeggex_order_book.py`: the message normalizers -/

/-- `OrderBookMessageType` tags. -/
inductive OrderBookMessageType where
  | snapshot
  | diff
  | trade

/-- A `XeggexOrderBookMessage`: tag, content dict and the timestamp passed
through unchanged (a float, an exchange-provided value, or `None`). -/
structure XeggexOrderBookMessage where
  message_type : OrderBookMessageType
  content : PyDict
  timestamp : JVal

/-- The `if metadata: msg.update(metadata)` step shared by all three
normalizers; Python treats both `None` and the empty dict as falsy. -/
def mergeMetadata (msg : PyDict) (metadata : Option PyDict) : PyDict :=
  match metadata with
  | some md => if md.isEmpty then msg else dictUpdate msg md
  | none => msg

/-- `XeggexOrderBook.snapshot_message_from_exchange`. -/
def snapshot_message_from_exchange (msg : PyDict) (timestamp : JVal)
    (metadata : Option PyDict) : XeggexOrderBookMessage :=
  { message_type := .snapshot, content := mergeMetadata msg metadata,
    timestamp := timestamp }

/-- `XeggexOrderBook.diff_message_from_exchange`. -/
def diff_message_from_exchange (msg : PyDict) (timestamp : JVal)
    (metadata : Option PyDict) : XeggexOrderBookMessage :=
  { message_type := .diff, content := mergeMetadata msg metadata,
    timestamp := timestamp }

/-- `XeggexOrderBook.trade_message_from_exchange`: metadata merge, then the
canonical-field remap `msg.update({"exchange_order_id": msg.get("id"), ...})`
whose right-hand sides are all read from the merged dict. -/
def trade_message_from_exchange (msg : PyDict) (timestamp : JVal)
    (metadata : Option PyDict) : XeggexOrderBookMessage :=
  let msg1 := mergeMetadata msg metadata
  let msg2 := dictUpdate msg1
    [("exchange_order_id", pyGet msg1 "id"),
     ("trade_type", pyGet msg1 "side"),
     ("price", pyGet msg1 "price"),
     ("amount", pyGet msg1 "quantity")]
  { message_type := .trade, content := msg2, timestamp := timestamp }

/-- What the canonical-field remap does to any base dict `b`: the four
target keys now hold `b.get` of their source keys, all other keys keep
their `b` value. -/
theorem pyGet_remap (b : PyDict) :
    pyGet (dictUpdate b
      [("exchange_order_id", pyGet b "id"), ("trade_type", pyGet b "side"),
       ("price", pyGet b "price"), ("amount", pyGet b "quantity")])
      "exchange_order_id" = pyGet b "id" ∧
    pyGet (dictUpdate b
      [("exchange_order_id", pyGet b "id"), ("trade_type", pyGet b "side"),
       ("price", pyGet b "price"), ("amount", pyGet b "quantity")])
      "trade_type" = pyGet b "side" ∧
    pyGet (dictUpdate b
      [("exchange_order_id", pyGet b "id"), ("trade_type", pyGet b "side"),
       ("price", pyGet b "price"), ("amount", pyGet b "quantity")])
      "price" = pyGet b "price" ∧
    pyGet (dictUpdate b
      [("exchange_order_id", pyGet b "id"), ("trade_type", pyGet b "side"),
       ("price", pyGet b "price"), ("amount", pyGet b "quantity")])
      "amount" = pyGet b "quantity" ∧
    (∀ k, k ≠ "exchange_order_id" → k ≠ "trade_type" → k ≠ "price" →
      k ≠ "amount" →
      pyGet (dictUpdate b
        [("exchange_order_id", pyGet b "id"), ("trade_type", pyGet b "side"),
         ("price", pyGet b "price"), ("amount", pyGet b "quantity")]) k =
        pyGet b k) := by
  have hchain : dictUpdate b
      [("exchange_order_id", pyGet b "id"), ("trade_type", pyGet b "side"),
       ("price", pyGet b "price"), ("amount", pyGet b "quantity")] =
      dictUpd (dictUpd (dictUpd (dictUpd b
        "exchange_order_id" (pyGet b "id"))
        "trade_type" (pyGet b "side"))
        "price" (pyGet b "price"))
        "amount" (pyGet b "quantity") := rfl
  rw [hchain]
  refine ⟨?_, ?_, ?_, ?_, ?_⟩
  · unfold pyGet
    rw [pyLookup_dictUpd_ne _ _ (by decide : "amount" ≠ "exchange_order_id"),
      pyLookup_dictUpd_ne _ _ (by decide : "price" ≠ "exchange_order_id"),
      pyLookup_dictUpd_ne _ _ (by decide : "trade_type" ≠ "exchange_order_id"),
      pyLookup_dictUpd_self]
    rfl
  · unfold pyGet
    rw [pyLookup_dictUpd_ne _ _ (by decide : "amount" ≠ "trade_type"),
      pyLookup_dictUpd_ne _ _ (by decide : "price" ≠ "trade_type"),
      pyLookup_dictUpd_self]
    rfl
  · unfold pyGet
    rw [pyLookup_dictUpd_ne _ _ (by decide : "amount" ≠ "price"),
      pyLookup_dictUpd_self]
    rfl
  · unfold pyGet
    rw [pyLookup_dictUpd_self]
    rfl
  · intro k h1 h2 h3 h4
    unfold pyGet
    rw [pyLookup_dictUpd_ne _ _ (fun he => h4 he.symm),
      pyLookup_dictUpd_ne _ _ (fun he => h3 he.symm),
      pyLookup_dictUpd_ne _ _ (fun he => h2 he.symm),
      pyLookup_dictUpd_ne _ _ (fun he => h1 he.symm)]

/-- C6: `trade_message_from_exchange` yields a `Trade`-typed message whose
content holds the raw `id` under `exchange_order_id`, `side` under
`trade_type`, `price` under `price` and `quantity` under `amount`. -/
theorem trade_message_canonical_remap (msg : PyDict) (timestamp : JVal) :
    (trade_message_from_exchange msg timestamp none).message_type =
      OrderBookMessageType.trade ∧
    pyGet (trade_message_from_exchange msg timestamp none).content
      "exchange_order_id" = pyGet msg "id" ∧
    pyGet (trade_message_from_exchange msg timestamp none).content
      "trade_type" = pyGet msg "side" ∧
    pyGet (trade_message_from_exchange msg timestamp none).content
      "price" = pyGet msg "price" ∧
    pyGet (trade_message_from_exchange msg timestamp none).content
      "amount" = pyGet msg "quantity" := by
  obtain ⟨h1, h2, h3, h4, _⟩ := pyGet_remap msg
  exact ⟨rfl, h1, h2, h3, h4⟩

/-- The raw trade payload `{"id": 42, "side": "buy", "price": "100.5",
"quantity": "2"}` of the spec's example. -/
def exampleTrade : PyDict :=
  [("id", .num 42), ("side", .str "buy"), ("price", .str "100.5"),
   ("quantity", .str "2")]

/-- C6 example: the payload above normalizes to `exchange_order_id = 42`,
`trade_type = "buy"`, `price = "100.5"`, `amount = "2"`. -/
theorem trade_message_canonical_remap_witness :
    (trade_message_from_exchange exampleTrade .null none).message_type =
      OrderBookMessageType.trade ∧
    pyGet (trade_message_from_exchange exampleTrade .null none).content
      "exchange_order_id" = pyGet exampleTrade "id" ∧
    pyGet (trade_message_from_exchange exampleTrade .null none).content
      "trade_type" = pyGet exampleTrade "side" ∧
    pyGet (trade_message_from_exchange exampleTrade .null none).content
      "price" = pyGet exampleTrade "price" ∧
    pyGet (trade_message_from_exchange exampleTrade .null none).content
      "amount" = pyGet exampleTrade "quantity" :=
  trade_message_canonical_remap exampleTrade .null

/-- C7 counterexample: with raw payload `{"exchange_order_id": 1}` and
metadata `{"exchange_order_id": 2}` — a key present in both — the trade
normalizer's final content holds `None` (the remap writes
`merged.get("id")` over it), not the metadata's value `2`. -/
theorem metadata_precedence_counterexample :
    pyGet ((trade_message_from_exchange [("exchange_order_id", .num 1)] .null
        (some [("exchange_order_id", .num 2)])).content) "exchange_order_id" =
      JVal.null ∧
    JVal.null ≠ JVal.num 2 :=
  ⟨rfl, fun h => JVal.noConfusion h⟩

/-- C7 as amended: for snapshot and diff messages the content is exactly
the raw payload merged with the metadata, with the metadata's value
winning on every shared key.  For trade messages the same merge happens
first, but the canonical-field remap then overwrites
`exchange_order_id`, `trade_type`, `price` and `amount` with the merged
dict's `id`, `side`, `price` and `quantity` values, so the metadata's
value survives into the final content on every shared key except
`exchange_order_id`, `trade_type` and `amount` (a metadata `price` still
wins, because the remap re-reads `price` from the merged dict). -/
theorem metadata_precedence_amended (raw md : PyDict) (ts : JVal)
    (hnd : (md.map Prod.fst).Nodup) (hne : md ≠ []) :
    (snapshot_message_from_exchange raw ts (some md)).content =
      dictUpdate raw md ∧
    (diff_message_from_exchange raw ts (some md)).content =
      dictUpdate raw md ∧
    (∀ k v, pyLookup md k = some v →
      pyGet (snapshot_message_from_exchange raw ts (some md)).content k = v) ∧
    (∀ k v, pyLookup md k = some v →
      pyGet (diff_message_from_exchange raw ts (some md)).content k = v) ∧
    (trade_message_from_exchange raw ts (some md)).content =
      dictUpdate (dictUpdate raw md)
        [("exchange_order_id", pyGet (dictUpdate raw md) "id"),
         ("trade_type", pyGet (dictUpdate raw md) "side"),
         ("price", pyGet (dictUpdate raw md) "price"),
         ("amount", pyGet (dictUpdate raw md) "quantity")] ∧
    (∀ k v, pyLookup md k = some v → k ≠ "exchange_order_id" →
      k ≠ "trade_type" → k ≠ "amount" →
      pyGet (trade_message_from_exchange raw ts (some md)).content k = v) := by
  have hmerge : mergeMetadata raw (some md) = dictUpdate raw md := by
    cases md with
    | nil => exact absurd rfl hne
    | cons a l => rfl
  have hsnap : (snapshot_message_from_exchange raw ts (some md)).content =
      dictUpdate raw md := hmerge
  have hdiff : (diff_message_from_exchange raw ts (some md)).content =
      dictUpdate raw md := hmerge
  have htrade : (trade_message_from_exchange raw ts (some md)).content =
      dictUpdate (dictUpdate raw md)
        [("exchange_order_id", pyGet (dictUpdate raw md) "id"),
         ("trade_type", pyGet (dictUpdate raw md) "side"),
         ("price", pyGet (dictUpdate raw md) "price"),
         ("amount", pyGet (dictUpdate raw md) "quantity")] := by
    unfold trade_message_from_exchange
    rw [hmerge]
  refine ⟨hsnap, hdiff, ?_, ?_, htrade, ?_⟩
  · intro k v h
    rw [hsnap]
    unfold pyGet
    rw [pyLookup_dictUpdate_mem hnd h raw]
    rfl
  · intro k v h
    rw [hdiff]
    unfold pyGet
    rw [pyLookup_dictUpdate_mem hnd h raw]
    rfl
  · intro k v h heoi htt hamt
    have hmd : pyGet (dictUpdate raw md) k = v := by
      unfold pyGet
      rw [pyLookup_dictUpdate_mem hnd h raw]
      rfl
    obtain ⟨_, _, hprice, _, hother⟩ := pyGet_remap (dictUpdate raw md)
    rw [htrade]
    by_cases hp : k = "price"
    · subst hp
      rw [hprice, hmd]
    · rw [hother k heoi htt hp hamt, hmd]

/-- Witness for C7 as amended: raw `{"a": 1, "trading_pair": "OLD"}` with
metadata `{"trading_pair": "BTC-USDT"}` — the metadata value survives in
all three message kinds. -/
theorem metadata_precedence_amended_witness :
    pyGet ((snapshot_message_from_exchange
        [("a", .num 1), ("trading_pair", .str "OLD")] .null
        (some [("trading_pair", .str "BTC-USDT")])).content) "trading_pair" =
      JVal.str "BTC-USDT" ∧
    pyGet ((trade_message_from_exchange
        [("a", .num 1), ("trading_pair", .str "OLD")] .null
        (some [("trading_pair", .str "BTC-USDT")])).content) "trading_pair" =
      JVal.str "BTC-USDT" := by
  have h := metadata_precedence_amended
    [("a", .num 1), ("trading_pair", .str "OLD")]
    [("trading_pair", .str "BTC-USDT")] .null
    (by simp) (by simp)
  exact ⟨h.2.2.1 "trading_pair" (.str "BTC-USDT") rfl,
         h.2.2.2.2.2 "trading_pair" (.str "BTC-USDT") rfl
           (by decide) (by decide) (by decide)⟩

/-- C10: `trade_message_from_exchange` is total on payloads missing any of
`id`, `side`, `price`, `quantity` (`dict.get` supplies `None`): each
canonical field carries the raw value when its source key is present and
`None` when it is absent. -/
theorem trade_message_missing_fields (msg : PyDict) (timestamp : JVal) :
    ((hasKey msg "id" = false →
      pyGet (trade_message_from_exchange msg timestamp none).content
        "exchange_order_id" = JVal.null) ∧
     (∀ v, pyLookup msg "id" = some v →
      pyGet (trade_message_from_exchange msg timestamp none).content
        "exchange_order_id" = v)) ∧
    ((hasKey msg "side" = false →
      pyGet (trade_message_from_exchange msg timestamp none).content
        "trade_type" = JVal.null) ∧
     (∀ v, pyLookup msg "side" = some v →
      pyGet (trade_message_from_exchange msg timestamp none).content
        "trade_type" = v)) ∧
    ((hasKey msg "price" = false →
      pyGet (trade_message_from_exchange msg timestamp none).content
        "price" = JVal.null) ∧
     (∀ v, pyLookup msg "price" = some v →
      pyGet (trade_message_from_exchange msg timestamp none).content
        "price" = v)) ∧
    ((hasKey msg "quantity" = false →
      pyGet (trade_message_from_exchange msg timestamp none).content
        "amount" = JVal.null) ∧
     (∀ v, pyLookup msg "quantity" = some v →
      pyGet (trade_message_from_exchange msg timestamp none).content
        "amount" = v)) := by
  have habs : ∀ src, hasKey msg src = false → pyGet msg src = JVal.null := by
    intro src h
    unfold pyGet
    cases hpk : pyLookup msg src with
    | none => rfl
    | some v =>
      unfold hasKey at h
      rw [hpk] at h
      simp at h
  have hpres : ∀ src v, pyLookup msg src = some v → pyGet msg src = v := by
    intro src v h
    unfold pyGet
    rw [h]
    rfl
  obtain ⟨h1, h2, h3, h4, _⟩ := pyGet_remap msg
  exact ⟨⟨fun h => h1.trans (habs _ h), fun v h => h1.trans (hpres _ v h)⟩,
         ⟨fun h => h2.trans (habs _ h), fun v h => h2.trans (hpres _ v h)⟩,
         ⟨fun h => h3.trans (habs _ h), fun v h => h3.trans (hpres _ v h)⟩,
         ⟨fun h => h4.trans (habs _ h), fun v h => h4.trans (hpres _ v h)⟩⟩

/-- Witness for C10: a payload holding only `price` yields
`exchange_order_id = None` and `price = "100.5"`. -/
theorem trade_message_missing_fields_witness :
    pyGet (trade_message_from_exchange [("price", .str "100.5")] .null
      none).content "exchange_order_id" = JVal.null ∧
    pyGet (trade_message_from_exchange [("price", .str "100.5")] .null
      none).content "price" = JVal.str "100.5" := by
  have h := trade_message_missing_fields [("price", .str "100.5")] .null
  exact ⟨h.1.1 rfl, h.2.2.1.2 (.str "100.5") rfl⟩

/-! ## `xeggex_api_order_book_data_source.py`: the symbol registry

The class-level cache `_trading_pair_symbol_map` and the fetch issued by
`init_trading_pair_symbols` are made explicit state: `fetched` is the
symbol→pair mapping built from the instrument-list response
(`symbol_data["symbol"] ↦ primary ticker "-" secondary ticker`), and
`fetchCount` counts instrument-list fetches. -/

/-- Class-level state of `XeggexAPIOrderBookDataSource`. -/
structure RegistryState where
  map : List (String × String)
  fetchCount : Nat

/-- `init_trading_pair_symbols`: one instrument-list fetch, then replace
the class map with the mapping built from the response. -/
def init_trading_pair_symbols (fetched : List (String × String))
    (st : RegistryState) : RegistryState :=
  { map := fetched, fetchCount := st.fetchCount + 1 }

/-- `trading_pair_symbol_map`: initialize lazily when the cached map is
falsy (empty), then return the class map. -/
def trading_pair_symbol_map (fetched : List (String × String))
    (st : RegistryState) : RegistryState × List (String × String) :=
  if st.map.isEmpty then
    let st' := init_trading_pair_symbols fetched st
    (st', st'.map)
  else (st, st.map)

/-- The list-comprehension scan
`[symbol for symbol, pair in symbol_map.items() if pair == trading_pair]`
followed by `symbols[0] if symbols else raise ValueError`. -/
def first_symbol_for (symbol_map : List (String × String))
    (trading_pair : String) : Option String :=
  match (symbol_map.filter (fun kv => kv.2 = trading_pair)).map Prod.fst with
  | [] => none
  | s :: _ => some s

/-- `exchange_symbol_associated_to_pair`: resolve through the (lazily
initialized) symbol map by scanning its values; `ValueError` as `none`. -/
def exchange_symbol_associated_to_pair (fetched : List (String × String))
    (st : RegistryState) (trading_pair : String) :
    RegistryState × Option String :=
  ((trading_pair_symbol_map fetched st).1,
   first_symbol_for (trading_pair_symbol_map fetched st).2 trading_pair)

/-- `trading_pair_associated_to_exchange_symbol`: `symbol_map[symbol]`,
`KeyError` (`none`) when the symbol is absent. -/
def trading_pair_associated_to_exchange_symbol
    (fetched : List (String × String)) (st : RegistryState)
    (symbol : String) : RegistryState × Option String :=
  ((trading_pair_symbol_map fetched st).1,
   pyLookup (trading_pair_symbol_map fetched st).2 symbol)

theorem pyLookup_eq_of_mem {α : Type} {m : List (String × α)} {s : String}
    {v : α} (hnd : (m.map Prod.fst).Nodup) (hm : (s, v) ∈ m) :
    pyLookup m s = some v := by
  induction m with
  | nil => cases hm
  | cons kv rest ih =>
    obtain ⟨k', w⟩ := kv
    simp only [List.map_cons, List.nodup_cons] at hnd
    rcases List.mem_cons.mp hm with heq | hmem
    · have h1 : s = k' := congrArg Prod.fst heq
      have h2 : v = w := congrArg Prod.snd heq
      subst h1
      subst h2
      simp [pyLookup]
    · by_cases hk : k' = s
      · subst hk
        exact absurd (List.mem_map_of_mem Prod.fst hmem) hnd.1
      · simp only [pyLookup_cons, hk, if_false]
        exact ih hnd.2 hmem

theorem trading_pair_symbol_map_of_ne (fetched : List (String × String))
    {st : RegistryState} (hne : st.map ≠ []) :
    trading_pair_symbol_map fetched st = (st, st.map) := by
  unfold trading_pair_symbol_map
  rw [if_neg]
  intro h
  exact hne (List.isEmpty_iff.mp h)

theorem exchange_symbol_of_ne (fetched : List (String × String))
    {st : RegistryState} (hne : st.map ≠ []) (p : String) :
    exchange_symbol_associated_to_pair fetched st p =
      (st, first_symbol_for st.map p) := by
  unfold exchange_symbol_associated_to_pair
  rw [trading_pair_symbol_map_of_ne fetched hne]

theorem resolve_to_pair_of_ne (fetched : List (String × String))
    {st : RegistryState} (hne : st.map ≠ []) (symbol : String) :
    trading_pair_associated_to_exchange_symbol fetched st symbol =
      (st, pyLookup st.map symbol) := by
  unfold trading_pair_associated_to_exchange_symbol
  rw [trading_pair_symbol_map_of_ne fetched hne]

/-- C3: for every populated symbol map and every trading pair `p` among
its values, `exchange_symbol_associated_to_pair` returns some exchange
symbol `s` with `map[s] = p`, and
`trading_pair_associated_to_exchange_symbol s` returns `p`; neither call
mutates the registry. -/
theorem symbol_pair_round_trip (fetched : List (String × String))
    (st : RegistryState) (p : String)
    (hnd : (st.map.map Prod.fst).Nodup)
    (hp : p ∈ st.map.map Prod.snd) :
    ∃ s, exchange_symbol_associated_to_pair fetched st p = (st, some s) ∧
      pyLookup st.map s = some p ∧
      trading_pair_associated_to_exchange_symbol fetched st s =
        (st, some p) := by
  have hne : st.map ≠ [] := by
    intro h
    rw [h] at hp
    simp at hp
  obtain ⟨⟨s0, v0⟩, hmem, hv⟩ := List.mem_map.mp hp
  have hv0 : v0 = p := hv
  have hfil : (s0, v0) ∈ st.map.filter (fun kv => kv.2 = p) := by
    rw [List.mem_filter]
    refine ⟨hmem, ?_⟩
    simp only [decide_eq_true_eq]
    exact hv0
  cases hcase : (st.map.filter (fun kv => kv.2 = p)).map Prod.fst with
  | nil =>
    rw [List.map_eq_nil_iff] at hcase
    rw [hcase] at hfil
    cases hfil
  | cons s srest =>
    have hs_mem : s ∈ (st.map.filter (fun kv => kv.2 = p)).map Prod.fst := by
      rw [hcase]
      exact List.mem_cons_self s srest
    obtain ⟨⟨s', v'⟩, hmem', hs'⟩ := List.mem_map.mp hs_mem
    rw [List.mem_filter] at hmem'
    have hs2 : s' = s := hs'
    have hv' : v' = p := by simpa using hmem'.2
    have hlook : pyLookup st.map s = some p := by
      have h := pyLookup_eq_of_mem hnd hmem'.1
      rw [hs2, hv'] at h
      exact h
    refine ⟨s, ?_, hlook, ?_⟩
    · rw [exchange_symbol_of_ne fetched hne p]
      unfold first_symbol_for
      rw [hcase]
    · rw [resolve_to_pair_of_ne fetched hne s, hlook]

/-- Witness for C3 on the spec's example: map `{"BTCUSDT": "BTC-USDT"}`,
`"BTC-USDT"` resolves to some symbol (namely `"BTCUSDT"`) and back. -/
theorem symbol_pair_round_trip_witness :
    ∃ s, exchange_symbol_associated_to_pair []
        ⟨[("BTCUSDT", "BTC-USDT")], 0⟩ "BTC-USDT" =
        (⟨[("BTCUSDT", "BTC-USDT")], 0⟩, some s) ∧
      pyLookup [("BTCUSDT", "BTC-USDT")] s = some "BTC-USDT" ∧
      trading_pair_associated_to_exchange_symbol []
        ⟨[("BTCUSDT", "BTC-USDT")], 0⟩ s =
        (⟨[("BTCUSDT", "BTC-USDT")], 0⟩, some "BTC-USDT") :=
  symbol_pair_round_trip [] ⟨[("BTCUSDT", "BTC-USDT")], 0⟩ "BTC-USDT"
    (by simp) (by simp)

/-- C4 counterexample: on the empty map,
`trading_pair_associated_to_exchange_symbol` does trigger initialization:
it issues an instrument-list fetch (count 0 → 1), replaces the stored
map, and even returns the pair for a symbol that was absent from the
(empty) stored map instead of failing. -/
theorem resolve_to_pair_triggers_init :
    (trading_pair_associated_to_exchange_symbol [("BTCUSDT", "BTC-USDT")]
      ⟨[], 0⟩ "BTCUSDT").1.fetchCount = 1 ∧
    (trading_pair_associated_to_exchange_symbol [("BTCUSDT", "BTC-USDT")]
      ⟨[], 0⟩ "BTCUSDT").1.map = [("BTCUSDT", "BTC-USDT")] ∧
    (trading_pair_associated_to_exchange_symbol [("BTCUSDT", "BTC-USDT")]
      ⟨[], 0⟩ "BTCUSDT").2 = some "BTC-USDT" :=
  ⟨rfl, rfl, rfl⟩

/-- C4 as amended: when the stored map is nonempty,
`trading_pair_associated_to_exchange_symbol` performs no instrument-list
fetch and leaves the stored map unchanged, failing (`KeyError`) exactly
when the symbol is absent; when the stored map is empty it first runs
the lazy initialization — one instrument-list fetch that replaces the
map — and answers from the freshly fetched map. -/
theorem resolve_to_pair_frame (fetched : List (String × String))
    (st : RegistryState) (symbol : String) :
    (st.map ≠ [] →
      trading_pair_associated_to_exchange_symbol fetched st symbol =
        (st, pyLookup st.map symbol)) ∧
    (st.map = [] →
      trading_pair_associated_to_exchange_symbol fetched st symbol =
        ({ map := fetched, fetchCount := st.fetchCount + 1 },
         pyLookup fetched symbol)) := by
  constructor
  · intro hne
    unfold trading_pair_associated_to_exchange_symbol
    rw [trading_pair_symbol_map_of_ne fetched hne]
  · intro hemp
    unfold trading_pair_associated_to_exchange_symbol
      trading_pair_symbol_map init_trading_pair_symbols
    rw [if_pos (List.isEmpty_iff.mpr hemp)]

/-- Witness for C4 as amended: with the populated map
`{"BTCUSDT": "BTC-USDT"}` and the absent symbol `"NONE0"`, the call
leaves state untouched and fails; on the empty map it fetches once. -/
theorem resolve_to_pair_frame_witness :
    trading_pair_associated_to_exchange_symbol []
      ⟨[("BTCUSDT", "BTC-USDT")], 5⟩ "NONE0" =
      (⟨[("BTCUSDT", "BTC-USDT")], 5⟩,
       pyLookup [("BTCUSDT", "BTC-USDT")] "NONE0") ∧
    trading_pair_associated_to_exchange_symbol [("BTCUSDT", "BTC-USDT")]
      ⟨[], 0⟩ "NONE0" =
      (⟨[("BTCUSDT", "BTC-USDT")], 1⟩,
       pyLookup [("BTCUSDT", "BTC-USDT")] "NONE0") :=
  ⟨(resolve_to_pair_frame [] ⟨[("BTCUSDT", "BTC-USDT")], 5⟩ "NONE0").1
      (by simp),
   (resolve_to_pair_frame [("BTCUSDT", "BTC-USDT")] ⟨[], 0⟩ "NONE0").2 rfl⟩

/-! ## The REST-snapshot fallback poller (`listen_for_order_book_snapshots`)

One cycle of the `for trading_pair in self._trading_pairs` loop.  The
per-pair `try` body is `get_order_book_data` (modelled by `fetch`, with
`none` for a raised error), the `snapshot["timestamp"]` read (KeyError for
a missing key) and the normalization; its `except Exception` branch
logs, sleeps 5s and continues with the next pair, contributing nothing
to the output queue.  The queue contents are the pushed messages in
order. -/

/-- The per-pair body: `none` exactly when the per-pair `except` fires. -/
def poll_pair (fetch : String → Option PyDict) (trading_pair : String) :
    Option XeggexOrderBookMessage :=
  match fetch trading_pair with
  | none => none
  | some snapshot =>
    match pyLookup snapshot "timestamp" with
    | none => none
    | some ts =>
        some (snapshot_message_from_exchange snapshot ts
          (some [("trading_pair", .str trading_pair)]))

/-- One full cycle over the configured pairs: every successful pair's
normalized snapshot message, pushed in order. -/
def listen_for_order_book_snapshots_cycle (fetch : String → Option PyDict)
    (trading_pairs : List String) : List XeggexOrderBookMessage :=
  trading_pairs.foldl
    (fun out p =>
      match poll_pair fetch p with
      | some m => out ++ [m]
      | none => out)
    []

theorem mem_cycle_aux (fetch : String → Option PyDict)
    (m : XeggexOrderBookMessage) :
    ∀ (pairs : List String) (acc : List XeggexOrderBookMessage),
      (m ∈ acc ∨ ∃ p ∈ pairs, poll_pair fetch p = some m) →
      m ∈ pairs.foldl
        (fun out p =>
          match poll_pair fetch p with
          | some m' => out ++ [m']
          | none => out)
        acc := by
  intro pairs
  induction pairs with
  | nil =>
    intro acc h
    rcases h with h | ⟨p, hp, _⟩
    · exact h
    · cases hp
  | cons q rest ih =>
    intro acc h
    rw [List.foldl_cons]
    apply ih
    rcases h with hacc | ⟨p, hp, hm⟩
    · left
      cases hpoll : poll_pair fetch q with
      | none => exact hacc
      | some m' => exact List.mem_append_left _ hacc
    · rcases List.mem_cons.mp hp with rfl | hp'
      · left
        rw [hm]
        exact List.mem_append_right _ (List.mem_singleton.mpr rfl)
      · right
        exact ⟨p, hp', hm⟩

/-- C8: in one cycle of the fallback poller, an error on one pair does not
abort the rest — every pair whose fetch-and-normalize succeeds has its
snapshot message on the output queue, whatever the error pattern of the
other pairs. -/
theorem snapshot_poller_partial_isolation (fetch : String → Option PyDict)
    (pairs : List String) (p : String) (m : XeggexOrderBookMessage)
    (hp : p ∈ pairs) (hm : poll_pair fetch p = some m) :
    m ∈ listen_for_order_book_snapshots_cycle fetch pairs :=
  mem_cycle_aux fetch m pairs [] (Or.inr ⟨p, hp, hm⟩)

/-- A three-pair fetch pattern in which only pair 2 fails. -/
def fetch3 : String → Option PyDict := fun p =>
  if p = "PAIR1" then some [("timestamp", .num 1), ("bids", .arr [])]
  else if p = "PAIR3" then some [("timestamp", .num 3), ("bids", .arr [])]
  else none

/-- Witness for C8: with pairs 1 and 3 succeeding and pair 2 failing,
both surviving pairs' snapshot messages are on the queue. -/
theorem snapshot_poller_partial_isolation_witness :
    snapshot_message_from_exchange [("timestamp", .num 1), ("bids", .arr [])]
        (.num 1) (some [("trading_pair", .str "PAIR1")]) ∈
      listen_for_order_book_snapshots_cycle fetch3
        ["PAIR1", "PAIR2", "PAIR3"] ∧
    snapshot_message_from_exchange [("timestamp", .num 3), ("bids", .arr [])]
        (.num 3) (some [("trading_pair", .str "PAIR3")]) ∈
      listen_for_order_book_snapshots_cycle fetch3
        ["PAIR1", "PAIR2", "PAIR3"] :=
  ⟨snapshot_poller_partial_isolation fetch3 ["PAIR1", "PAIR2", "PAIR3"]
      "PAIR1" _ (by simp) rfl,
   snapshot_poller_partial_isolation fetch3 ["PAIR1", "PAIR2", "PAIR3"]
      "PAIR3" _ (by simp) rfl⟩

/-! ## Concurrent first use of `trading_pair_symbol_map`

The method holds no lock.  Between its emptiness check of the class map
and the write of the map there is exactly one suspension point — the
`await api_call_with_retries(...)` inside `init_trading_pair_symbols` —
so a caller's execution is two atomic steps: `check` (read the class
map; when it is empty, start an instrument-list fetch) and `complete`
(the fetch returns, the class map is written and the caller returns the
freshly written map).  A caller whose check finds the map populated
returns it at once, with no suspension in between.  A schedule is an
arbitrary interleaving of these steps; all fetches return the same
instrument list `fetched`. -/

/-- Where one caller of `trading_pair_symbol_map` stands. -/
inductive CallerState where
  | start
  | fetching
  | done (observed : List (String × String))

/-- Class map, number of instrument-list fetches issued so far, and the
per-caller states. -/
structure ConcState where
  map : List (String × String)
  fetches : Nat
  callers : List CallerState

/-- A scheduler decision: run caller `i`'s next atomic step. -/
inductive SchedStep where
  | check (i : Nat)
  | complete (i : Nat)

/-- One atomic step.  Steps not enabled for caller `i` do nothing. -/
def concStep (fetched : List (String × String)) (s : ConcState) :
    SchedStep → ConcState
  | .check i =>
    match s.callers.get? i with
    | some .start =>
      if s.map.isEmpty then
        { s with fetches := s.fetches + 1,
                 callers := s.callers.set i .fetching }
      else
        { s with callers := s.callers.set i (.done s.map) }
    | _ => s
  | .complete i =>
    match s.callers.get? i with
    | some .fetching =>
      { map := fetched, fetches := s.fetches,
        callers := s.callers.set i (.done fetched) }
    | _ => s

/-- Run a schedule from a state. -/
def concRun (fetched : List (String × String)) (s : ConcState)
    (trace : List SchedStep) : ConcState :=
  trace.foldl (concStep fetched) s

/-- `N` callers about to hit the not-yet-populated registry. -/
def concInit (N : Nat) : ConcState :=
  { map := [], fetches := 0, callers := List.replicate N .start }

/-- C9 counterexample: with two concurrent first-use callers scheduled as
check 0, check 1, complete 0, complete 1 — both checks run before either
fetch completes — two instrument-list fetches are issued, not exactly
one. -/
theorem single_flight_counterexample :
    (concRun [("BTCUSDT", "BTC-USDT")] (concInit 2)
      [.check 0, .check 1, .complete 0, .complete 1]).fetches = 2 ∧
    (concRun [("BTCUSDT", "BTC-USDT")] (concInit 2)
      [.check 0, .check 1, .complete 0, .complete 1]).fetches ≠ 1 :=
  ⟨rfl, fun h => Nat.noConfusion (Nat.succ.inj h)⟩

/-- Is a caller still at its initial step? -/
def CallerState.isStart : CallerState → Bool
  | .start => true
  | _ => false

theorem countStart_set {l : List CallerState} {i : Nat} {a x : CallerState}
    (hget : l.get? i = some a) (ha : a.isStart = true)
    (hx : x.isStart = false) :
    ((l.set i x).filter CallerState.isStart).length + 1 =
      (l.filter CallerState.isStart).length := by
  induction l generalizing i with
  | nil => cases hget
  | cons b rest ih =>
    cases i with
    | zero =>
      obtain rfl := Option.some.inj hget
      simp only [List.set_cons_zero, List.filter_cons, ha, hx]
      rfl
    | succ i =>
      simp only [List.get?_cons_succ] at hget
      simp only [List.set_cons_succ, List.filter_cons]
      cases hb : b.isStart <;>
        simp [ih hget]

theorem countStart_set_nonstart {l : List CallerState} {i : Nat}
    {a x : CallerState} (hget : l.get? i = some a)
    (ha : a.isStart = false) (hx : x.isStart = false) :
    ((l.set i x).filter CallerState.isStart).length =
      (l.filter CallerState.isStart).length := by
  induction l generalizing i with
  | nil => cases hget
  | cons b rest ih =>
    cases i with
    | zero =>
      obtain rfl := Option.some.inj hget
      simp [List.set_cons_zero, List.filter_cons, ha, hx]
    | succ i =>
      simp only [List.get?_cons_succ] at hget
      simp only [List.set_cons_succ, List.filter_cons]
      cases hb : b.isStart <;>
        simp [ih hget]

/-- The inductive invariant of the interleaving system. -/
def ConcInv (fetched : List (String × String)) (N : Nat)
    (s : ConcState) : Prop :=
  (s.map = [] ∨ s.map = fetched) ∧
  (∀ c ∈ s.callers, ∀ obs, c = CallerState.done obs → obs = fetched) ∧
  s.fetches + (s.callers.filter CallerState.isStart).length ≤ N ∧
  ((s.map ≠ [] ∨ ∃ c ∈ s.callers, c ≠ CallerState.start) → 1 ≤ s.fetches)

theorem concInv_init (fetched : List (String × String)) (N : Nat) :
    ConcInv fetched N (concInit N) := by
  refine ⟨Or.inl rfl, ?_, ?_, ?_⟩
  · intro c hc obs hdone
    rw [List.eq_of_mem_replicate hc] at hdone
    cases hdone
  · have : (List.replicate N CallerState.start).filter
        CallerState.isStart = List.replicate N CallerState.start := by
      rw [List.filter_eq_self]
      intro c hc
      rw [List.eq_of_mem_replicate hc]
      rfl
    simp [concInit, this]
  · rintro (hmap | ⟨c, hc, hne⟩)
    · exact absurd rfl hmap
    · exact absurd (List.eq_of_mem_replicate hc) hne

theorem concInv_step (fetched : List (String × String)) (N : Nat)
    {s : ConcState} (hinv : ConcInv fetched N s) (step : SchedStep) :
    ConcInv fetched N (concStep fetched s step) := by
  obtain ⟨hmap, hdone, hcount, hfetch⟩ := hinv
  cases step with
  | check i =>
    cases hget : s.callers.get? i with
    | none =>
      simp only [concStep, hget]
      exact ⟨hmap, hdone, hcount, hfetch⟩
    | some c =>
      cases c with
      | start =>
        simp only [concStep, hget]
        by_cases hemp : s.map.isEmpty
        · rw [if_pos hemp]
          refine ⟨hmap, ?_, ?_, fun _ => ?_⟩
          · intro c hc obs hdoneobs
            rcases List.mem_or_eq_of_mem_set hc with hc' | rfl
            · exact hdone c hc' obs hdoneobs
            · cases hdoneobs
          · show s.fetches + 1 +
              ((s.callers.set i CallerState.fetching).filter
                CallerState.isStart).length ≤ N
            have hcs : ((s.callers.set i CallerState.fetching).filter
                CallerState.isStart).length + 1 =
                (s.callers.filter CallerState.isStart).length :=
              countStart_set hget rfl rfl
            omega
          · show 1 ≤ s.fetches + 1
            omega
        · rw [if_neg hemp]
          have hmapne : s.map ≠ [] := by
            intro h
            exact hemp (List.isEmpty_iff.mpr h)
          have hmapf : s.map = fetched := by
            rcases hmap with h | h
            · exact absurd h hmapne
            · exact h
          refine ⟨hmap, ?_, ?_, ?_⟩
          · intro c hc obs hdoneobs
            rcases List.mem_or_eq_of_mem_set hc with hc' | rfl
            · exact hdone c hc' obs hdoneobs
            · have hobs : s.map = obs := CallerState.done.inj hdoneobs
              rw [← hobs]
              exact hmapf
          · show s.fetches +
              ((s.callers.set i (CallerState.done s.map)).filter
                CallerState.isStart).length ≤ N
            have hcs : ((s.callers.set i (CallerState.done s.map)).filter
                CallerState.isStart).length + 1 =
                (s.callers.filter CallerState.isStart).length :=
              countStart_set hget rfl rfl
            omega
          · intro _
            exact hfetch (Or.inl hmapne)
      | fetching =>
        simp only [concStep, hget]
        exact ⟨hmap, hdone, hcount, hfetch⟩
      | done obs =>
        simp only [concStep, hget]
        exact ⟨hmap, hdone, hcount, hfetch⟩
  | complete i =>
    cases hget : s.callers.get? i with
    | none =>
      simp only [concStep, hget]
      exact ⟨hmap, hdone, hcount, hfetch⟩
    | some c =>
      cases c with
      | start =>
        simp only [concStep, hget]
        exact ⟨hmap, hdone, hcount, hfetch⟩
      | done obs =>
        simp only [concStep, hget]
        exact ⟨hmap, hdone, hcount, hfetch⟩
      | fetching =>
        simp only [concStep, hget]
        have hfetching : ∃ c ∈ s.callers, c ≠ CallerState.start := by
          refine ⟨CallerState.fetching, ?_, fun h => CallerState.noConfusion h⟩
          exact List.get?_mem hget
        refine ⟨Or.inr rfl, ?_, ?_, fun _ => hfetch (Or.inr hfetching)⟩
        · intro c hc obs hdoneobs
          rcases List.mem_or_eq_of_mem_set hc with hc' | rfl
          · exact hdone c hc' obs hdoneobs
          · exact (CallerState.done.inj hdoneobs).symm
        · show s.fetches +
            ((s.callers.set i (CallerState.done fetched)).filter
              CallerState.isStart).length ≤ N
          have hcs : ((s.callers.set i (CallerState.done fetched)).filter
              CallerState.isStart).length =
              (s.callers.filter CallerState.isStart).length :=
            countStart_set_nonstart hget rfl rfl
          omega

theorem concInv_run (fetched : List (String × String)) (N : Nat)
    (trace : List SchedStep) :
    ConcInv fetched N (concRun fetched (concInit N) trace) := by
  rw [concRun]
  induction trace using List.reverseRecOn with
  | nil => exact concInv_init fetched N
  | append_singleton rest step ih =>
    rw [List.foldl_append, List.foldl_cons, List.foldl_nil]
    exact concInv_step fetched N ih step

/-- C9 as amended: the initialization is not single-flight — each caller
whose check still sees the empty map issues its own instrument-list
fetch, so an interleaving of `N` first-use callers issues between 1 and
`N` fetches (at least one once any caller has finished) — but every
caller that completes observes the same fully-populated map, the fetched
instrument list. -/
theorem single_flight_amended (fetched : List (String × String))
    (hf : fetched ≠ []) (N : Nat) (trace : List SchedStep) :
    (concRun fetched (concInit N) trace).fetches ≤ N ∧
    (∀ c ∈ (concRun fetched (concInit N) trace).callers, ∀ obs,
      c = CallerState.done obs → obs = fetched ∧ obs ≠ []) ∧
    ((∃ c ∈ (concRun fetched (concInit N) trace).callers, ∃ obs,
        c = CallerState.done obs) →
      1 ≤ (concRun fetched (concInit N) trace).fetches) := by
  obtain ⟨hmap, hdone, hcount, hfetch⟩ := concInv_run fetched N trace
  refine ⟨by omega, ?_, ?_⟩
  · intro c hc obs h
    have := hdone c hc obs h
    exact ⟨this, this ▸ hf⟩
  · rintro ⟨c, hc, obs, rfl⟩
    exact hfetch (Or.inr ⟨_, hc, fun h => CallerState.noConfusion h⟩)

/-- Witness for C9 as amended, on the two-fetch interleaving of the
counterexample: at most two fetches, at least one, and both finished
callers observed the fetched map. -/
theorem single_flight_amended_witness :
    (concRun [("BTCUSDT", "BTC-USDT")] (concInit 2)
      [.check 0, .check 1, .complete 0, .complete 1]).fetches ≤ 2 ∧
    1 ≤ (concRun [("BTCUSDT", "BTC-USDT")] (concInit 2)
      [.check 0, .check 1, .complete 0, .complete 1]).fetches :=
  ⟨(single_flight_amended [("BTCUSDT", "BTC-USDT")]
      (fun h => List.noConfusion h) 2
      [.check 0, .check 1, .complete 0, .complete 1]).1,
   (single_flight_amended [("BTCUSDT", "BTC-USDT")]
      (fun h => List.noConfusion h) 2
      [.check 0, .check 1, .complete 0, .complete 1]).2.2
      ⟨CallerState.done [("BTCUSDT", "BTC-USDT")],
       List.mem_cons_self _ _, [("BTCUSDT", "BTC-USDT")], rfl⟩⟩

end Xeggex
